import Mathlib

/-!
Verification of the routing engine and publish pipeline of the
telegram-nats-bridge repository, as a shallow embedding.

The embedding follows the Go source:
  * `runExpr`, `NewRouter`, `Router.Route` (batched, `routeWorkers`-bounded
    concurrency) from the current router file;
  * `Router.RouteOld` from the legacy sequential router file;
  * `Publisher` (worker pool: `Publish`, `worker`, `Close`) and
    `NATSClient.Publish` from the publisher / NATS client file;
  * `Config.Validate` route checks from config.go.

The external expression engine (github.com/expr-lang/expr) is modelled as an
opaque capability, per its contract: a compiled program is a pure function
from the bound event to a value or a runtime error, and compilation is an
opaque fallible function from source text to a program.  Go scheduling
nondeterminism inside `Route` (the order in which a batch's goroutines
deliver their results on the channel) is made explicit: `RouteSched` takes
the per-batch arrival orders as a parameter, and `Router.Route` is the
canonical in-index-order schedule.
-/

/-- Go runtime values that an expression program can produce
(`interface{}` outputs of `expr.Run`): booleans, strings, integers, nil and
nested maps, mirroring the `map[string]any` update payloads. -/
inductive Val where
  | vBool (b : Bool)
  | vStr (s : String)
  | vInt (n : Int)
  | vNil
  | vMap (fields : List (String × Val))

/-- The Go type name of a value as rendered by the `%T` format verb, used in
`runExpr`'s type-assertion error message. -/
def Val.goType : Val → String
  | .vBool _ => "bool"
  | .vStr _ => "string"
  | .vInt _ => "int"
  | .vNil => "<nil>"
  | .vMap _ => "map[string]interface {}"

/-- An update event: `type Update = map[string]any`, modelled as a field map. -/
def Update := List (String × Val)

/-- A compiled expression program (`*vm.Program`).  Per the expression
engine's contract it evaluates deterministically with no side effects, so it
is modelled as a pure function from the event bound in the run environment
to a value or a runtime error string. -/
def Program := Update → Except String Val

instance : Inhabited Program := ⟨fun _ => .error "nil program"⟩

/-- `runExpr[bool]`: run the program on the per-call environment binding the
update, then type-assert the output to `bool`; a failed assertion yields the
error `expected bool, got <T>` exactly as `fmt.Errorf("expected %T, got %T")`
renders it. -/
def runExprBool (program : Program) (update : Update) : Except String Bool :=
  match program update with
  | .error e => .error e
  | .ok (Val.vBool b) => .ok b
  | .ok v => .error ("expected bool, got " ++ v.goType)

/-- `runExpr[string]`: as `runExprBool` but asserting the output to `string`. -/
def runExprString (program : Program) (update : Update) : Except String String :=
  match program update with
  | .error e => .error e
  | .ok (Val.vStr s) => .ok s
  | .ok v => .error ("expected string, got " ++ v.goType)

/-- `type RouteSubjectType string`. -/
def RouteSubjectType := String

instance : DecidableEq RouteSubjectType := fun a b => String.decEq a b

/-- `SubjectTypeString RouteSubjectType = "string"`. -/
def SubjectTypeString : RouteSubjectType := "string"

/-- `SubjectTypeExpr RouteSubjectType = "expr"`. -/
def SubjectTypeExpr : RouteSubjectType := "expr"

/-- A route's subject specification from the configuration. -/
structure RouteSubject where
  Ty : RouteSubjectType
  Value : String

/-- A declarative routing rule from the configuration. -/
structure Route where
  Condition : String
  Subject : RouteSubject

instance : Inhabited Route := ⟨⟨"", ⟨"", ""⟩⟩⟩

/-- A compiled route.  In Go `subjectExpr *vm.Program` is a possibly-nil
pointer, hence `Option Program`; it is non-nil exactly when the subject type
is `expr` in any route produced by `NewRouter`. -/
structure compiledRoute where
  condition : Program
  subjectType : RouteSubjectType
  subjectStatic : String
  subjectExpr : Option Program

instance : Inhabited compiledRoute :=
  ⟨⟨default, "", "", none⟩⟩

/-- The router: immutable compiled route list, mode and batching bound. -/
structure Router where
  routes : List compiledRoute
  mode : String
  routeWorkers : Nat

/-- The expression engine's compilation capability as invoked by `NewRouter`:
`compileBool src` is `expr.Compile(src, expr.Env(env), expr.AsBool())`
(the boolean expected-return-kind constraint) and `compileAny src` is
`expr.Compile(src, expr.Env(env))` (no return-kind constraint). -/
structure ExprCompiler where
  compileBool : String → Except String Program
  compileAny : String → Except String Program

/-- Compilation of the `i`-th route inside `NewRouter`'s loop body: compile
the condition with the boolean constraint, then — by subject type — record
the literal subject or compile the subject expression with no constraint.
Error messages carry the route index and the failing phase like the
`fmt.Errorf` wrapping in the source. -/
def compileRoute (C : ExprCompiler) (i : Nat) (route : Route) :
    Except String compiledRoute :=
  match C.compileBool route.Condition with
  | .error e =>
      .error ("failed to compile condition for route[" ++ toString i ++ "]: " ++ e)
  | .ok condition =>
      if route.Subject.Ty = SubjectTypeString then
        .ok ⟨condition, route.Subject.Ty, route.Subject.Value, none⟩
      else if route.Subject.Ty = SubjectTypeExpr then
        match C.compileAny route.Subject.Value with
        | .error e =>
            .error ("failed to compile subject expression for route[" ++
              toString i ++ "]: " ++ e)
        | .ok p => .ok ⟨condition, route.Subject.Ty, "", some p⟩
      else
        .ok ⟨condition, route.Subject.Ty, "", none⟩

/-- The compilation loop of `NewRouter`.  The source compiles routes in
parallel through an errgroup with bounded parallelism; every route is
compiled into the index-aligned slice, and on failure `eg.Wait()` surfaces
one failing route's error.  The model resolves the errgroup's choice among
several failing routes canonically to the lowest index (with a single
failing route the two agree). -/
def compileRoutesGo (C : ExprCompiler) : Nat → List Route →
    Except String (List compiledRoute)
  | _, [] => .ok []
  | i, route :: rest =>
    match compileRoute C i route with
    | .error e => .error e
    | .ok cr =>
      match compileRoutesGo C (i + 1) rest with
      | .error e => .error e
      | .ok crs => .ok (cr :: crs)

/-- `NewRouter(routes, mode, routeWorkers, logger)`: compile all routes or
fail with the offending route's error; no partial router is ever returned. -/
def NewRouter (C : ExprCompiler) (routes : List Route) (mode : String)
    (routeWorkers : Nat) : Except String Router :=
  match compileRoutesGo C 0 routes with
  | .error e => .error e
  | .ok crs => .ok ⟨crs, mode, routeWorkers⟩

/-- The body of one routing goroutine in `Router.Route`: evaluate the
condition; on `false` report a non-match; on `true` produce the subject by
subject type (literal lookup, subject-program run, or — for any other
subject type, as in the Go `switch` default — the empty string). -/
def evalRoute (route : compiledRoute) (update : Update) :
    Except String (Bool × String) :=
  match runExprBool route.condition update with
  | .error e => .error e
  | .ok false => .ok (false, "")
  | .ok true =>
      if route.subjectType = SubjectTypeString then
        .ok (true, route.subjectStatic)
      else if route.subjectType = SubjectTypeExpr then
        match route.subjectExpr with
        | some p =>
          match runExprString p update with
          | .error e => .error e
          | .ok s => .ok (true, s)
        | none => .error "nil program"
      else
        .ok (true, "")

/-- Evaluation of the route at index `idx` of the compiled list (the default
route of the out-of-range case carries a nil program and only errors, and is
never reached from in-range indices). -/
def evalAt (routes : List compiledRoute) (idx : Nat) (update : Update) :
    Except String (Bool × String) :=
  evalRoute (routes.getD idx default) update

/-- The `(cond, subj)` pair of route `idx` when its evaluation succeeds. -/
def evalPair (routes : List compiledRoute) (update : Update) (idx : Nat) :
    Bool × String :=
  match evalAt routes idx update with
  | .ok v => v
  | .error _ => (false, "")

/-- Whether evaluating route `idx` fails at runtime. -/
def isErrAt (routes : List compiledRoute) (update : Update) (idx : Nat) : Bool :=
  match evalAt routes idx update with
  | .error _ => true
  | .ok _ => false

/-- Whether route `idx` matches the update (condition true, both stages ok). -/
def isMatchAt (routes : List compiledRoute) (update : Update) (idx : Nat) : Bool :=
  (evalPair routes update idx).1

/-- The subject route `idx` produces for the update (meaningful when it
matches). -/
def subjAt (routes : List compiledRoute) (update : Update) (idx : Nat) : String :=
  (evalPair routes update idx).2

/-- The batch decomposition of `Route`'s outer loop
(`for i := 0; i < len(r.routes); i += r.routeWorkers` with
`batchSize = min(r.routeWorkers, len(r.routes)-i)`): consecutive chunks of
size `W`.  The source loops forever when `W = 0` and the route list is
non-empty (the configuration validator requires `route_workers > 0`), so
theorems about batching assume `0 < W`. -/
def toBatchesF {α : Type _} (W : Nat) : Nat → List α → List (List α)
  | 0, _ => []
  | fuel + 1, l =>
    match l with
    | [] => []
    | x :: xs => (x :: xs.take (W - 1)) :: toBatchesF W fuel (xs.drop (W - 1))

def toBatches {α : Type _} (W : Nat) (l : List α) : List (List α) :=
  toBatchesF W l.length l

theorem toBatchesF_fuel {α : Type _} (W : Nat) :
    ∀ (f f' : Nat) (l : List α), l.length ≤ f → l.length ≤ f' →
    toBatchesF W f l = toBatchesF W f' l := by
  intro f
  induction f with
  | zero =>
    intro f' l hf _
    have : l = [] := List.length_eq_zero.mp (by omega)
    subst this
    cases f' <;> rfl
  | succ f ih =>
    intro f' l hf hf'
    cases l with
    | nil => cases f' <;> rfl
    | cons x xs =>
      obtain ⟨f'', rfl⟩ : ∃ f'', f' = f'' + 1 :=
        ⟨f' - 1, by simp at hf'; omega⟩
      rw [toBatchesF, toBatchesF]
      have hd : (xs.drop (W - 1)).length ≤ f := by
        rw [List.length_drop]
        simp at hf
        omega
      have hd' : (xs.drop (W - 1)).length ≤ f'' := by
        rw [List.length_drop]
        simp at hf'
        omega
      rw [ih f'' _ hd hd']

theorem toBatches_cons {α : Type _} (W : Nat) (x : α) (xs : List α) :
    toBatches W (x :: xs) =
      (x :: xs.take (W - 1)) :: toBatches W (xs.drop (W - 1)) := by
  show toBatchesF W (x :: xs).length (x :: xs) = _
  rw [List.length_cons, toBatchesF]
  unfold toBatches
  rw [toBatchesF_fuel W xs.length (xs.drop (W - 1)).length (xs.drop (W - 1))
    (by rw [List.length_drop]; omega) (le_refl _)]

/-- Draining one batch's result channel: the goroutine results arrive in the
order `arrival` (a scheduling-dependent permutation of the batch's indices);
each is checked for an error — which aborts the whole call — then stored in
the per-index `results` slot, accumulating the batch's match flag. -/
def drainBatch (routes : List compiledRoute) (update : Update) :
    List Nat → (Nat → Bool × String) → Bool →
    Except String ((Nat → Bool × String) × Bool)
  | [], results, matched => .ok (results, matched)
  | idx :: rest, results, matched =>
    match evalAt routes idx update with
    | .error e => .error e
    | .ok (c, s) =>
        drainBatch routes update rest
          (fun j => if j = idx then (c, s) else results j) (matched || c)

/-- The `first`-mode selection scan: walk the accumulated `results` slice in
original index order and return the subject of the first entry whose
condition flag is set. -/
def firstMatchSubj (n : Nat) (results : Nat → Bool × String) : Option String :=
  ((List.range n).find? (fun j => (results j).1)).map (fun j => (results j).2)

/-- The final collection loop of `Route`: scan `results` in index order,
keep each matched subject on first occurrence (`seen` map), drop repeats. -/
def collectFinal : List (Bool × String) → List String → List String
  | [], _ => []
  | (c, s) :: rest, seen =>
      if c = true ∧ s ∉ seen then s :: collectFinal rest (s :: seen)
      else collectFinal rest seen

/-- The batch loop of `Router.Route`: drain each batch in declared order;
an evaluation error aborts the call; in `first` mode, once some route of the
completed batch matched, return the lowest-index accumulated match as a
singleton; after the last batch, collect and deduplicate all matches. -/
def routeLoop (routes : List compiledRoute) (update : Update) (mode : String)
    (n : Nat) : List (List Nat) → (Nat → Bool × String) →
    Except String (List String)
  | [], results => .ok (collectFinal ((List.range n).map results) [])
  | batch :: rest, results =>
    match drainBatch routes update batch results false with
    | .error e => .error e
    | .ok (results', matched) =>
      if mode = "first" && matched then
        match firstMatchSubj n results' with
        | some s => .ok [s]
        | none => routeLoop routes update mode n rest results'
      else
        routeLoop routes update mode n rest results'

/-- `Router.Route` under an explicit schedule: `sched` lists, batch by
batch, the order in which that batch's goroutines deliver their results. -/
def Router.RouteSched (r : Router) (sched : List (List Nat)) (update : Update) :
    Except String (List String) :=
  routeLoop r.routes update r.mode r.routes.length sched (fun _ => (false, ""))

/-- A schedule is valid when it has one arrival list per batch and each is a
permutation of that batch's indices. -/
def ValidSched (W n : Nat) (sched : List (List Nat)) : Prop :=
  List.Forall₂ List.Perm sched (toBatches W (List.range n))

/-- `Router.Route(update)`, resolved to the canonical in-index-order
schedule (every valid schedule yields the same successful results; see the
determinism results below). -/
def Router.Route (r : Router) (update : Update) : Except String (List String) :=
  r.RouteSched (toBatches r.routeWorkers (List.range r.routes.length)) update

/-- The legacy sequential `Router.Route` (the earlier revision kept in the
repository): evaluate routes in order, wrap evaluation errors with a
stage-identifying prefix, insert matched subjects into the result set, stop
after the first match in `first` mode.  The Go `map[string]bool` result is
modelled as the list of its keys in insertion order. -/
def Router.RouteOld (r : Router) (update : Update) : Except String (List String) :=
  go r.routes []
where
  go : List compiledRoute → List String → Except String (List String)
    | [], acc => .ok acc
    | route :: rest, acc =>
      match runExprBool route.condition update with
      | .error e => .error ("condition evaluation error: " ++ e)
      | .ok false => go rest acc
      | .ok true =>
        let subj : Except String String :=
          if route.subjectType = SubjectTypeString then .ok route.subjectStatic
          else if route.subjectType = SubjectTypeExpr then
            match route.subjectExpr with
            | some p =>
              match runExprString p update with
              | .error e => .error ("subject expression evaluation error: " ++ e)
              | .ok s => .ok s
            | none => .error "nil program"
          else .ok ""
        match subj with
        | .error e => .error e
        | .ok s =>
          let acc' := if s ∈ acc then acc else acc ++ [s]
          if r.mode = "first" then .ok acc' else go rest acc'

/-- Specification-side restatement of `first-occurrence deduplication` for
the refinement comparison with `collectFinal`: keep each subject the first
time it appears, drop later repeats. -/
def specDedupFirstOccurrence : List String → List String → List String
  | [], _ => []
  | s :: rest, seen =>
      if s ∈ seen then specDedupFirstOccurrence rest seen
      else s :: specDedupFirstOccurrence rest (s :: seen)

/-- The route-level checks of `Config.Validate` for one route: condition,
subject type and subject value must be non-empty and the subject type must
be `string` or `expr`. -/
def routeValid (route : Route) : Prop :=
  route.Condition ≠ "" ∧ route.Subject.Ty ≠ ("" : String) ∧
    route.Subject.Value ≠ "" ∧
    (route.Subject.Ty = SubjectTypeString ∨ route.Subject.Ty = SubjectTypeExpr)

/-- A publish task handed to the worker pool. -/
structure publishTask where
  subject : String
  data : Val

/-- The shared state of the `Publisher` worker pool that its operations
touch: the cancellation flag of its context (set by `Close` via `cancel()`),
whether `close(p.tasks)` has run, the buffered task channel's contents and
its capacity (`workers * 2`). -/
structure PublisherState where
  cancelled : Bool
  tasksClosed : Bool
  queue : List publishTask
  capacity : Nat

/-- `NewPublisher(workers, timeoutSec, ...)`: fresh context, empty buffered
task channel of capacity `workers * 2`. -/
def NewPublisherState (workers : Nat) : PublisherState :=
  ⟨false, false, [], workers * 2⟩

/-- The synchronous part of `Publisher.Close()`: `p.cancel()` followed by
`close(p.tasks)` (the subsequent bounded wait for the workers does not
change this state). -/
def PublisherState.closeSignal (s : PublisherState) : PublisherState :=
  { s with cancelled := true, tasksClosed := true }

/-- Which case a Go `select` commits to when more than one case is ready;
the runtime chooses pseudo-randomly, so it is an explicit parameter. -/
inductive SelectBranch where
  | ctxDone
  | taskChan
  deriving DecidableEq

/-- The observable outcome of one `Publisher.Publish` call. -/
inductive PublishOutcome where
  | dropped
  | enqueued
  | panicked
  | blocked
  deriving DecidableEq

/-- `Publisher.Publish(subject, data)`: `select` between `<-p.ctx.Done()`
(ready once cancelled; drops the task) and `p.tasks <- task` (ready when the
buffered channel has space — or when the channel is closed, in which case
executing the send panics).  When both cases are ready the runtime's choice
`pick` decides; when neither is ready the caller blocks. -/
def PublisherState.publishStep (s : PublisherState) (t : publishTask)
    (pick : SelectBranch) : PublishOutcome × PublisherState :=
  let doneReady := s.cancelled
  let sendReady := s.tasksClosed || decide (s.queue.length < s.capacity)
  let doSend : PublishOutcome × PublisherState :=
    if s.tasksClosed then (.panicked, s)
    else (.enqueued, { s with queue := s.queue ++ [t] })
  if doneReady && sendReady then
    match pick with
    | .ctxDone => (.dropped, s)
    | .taskChan => doSend
  else if doneReady then (.dropped, s)
  else if sendReady then doSend
  else (.blocked, s)

/-- The observable outcome of one iteration of `Publisher.worker`'s loop. -/
inductive WorkerOutcome where
  | exited
  | processed (t : publishTask)
  | blocked

/-- One iteration of `Publisher.worker`: `select` between `<-p.ctx.Done()`
(ready once cancelled; the worker returns) and `task, ok := <-p.tasks`
(ready when a task is queued — the worker dequeues and processes it — or
when the channel is closed and empty — `ok` is false and the worker
returns).  When both are ready the runtime's choice `pick` decides. -/
def PublisherState.workerStep (s : PublisherState) (pick : SelectBranch) :
    WorkerOutcome × PublisherState :=
  let doneReady := s.cancelled
  let recvReady := !s.queue.isEmpty || s.tasksClosed
  let doRecv : WorkerOutcome × PublisherState :=
    match s.queue with
    | t :: rest => (.processed t, { s with queue := rest })
    | [] => (.exited, s)
  if doneReady && recvReady then
    match pick with
    | .ctxDone => (.exited, s)
    | .taskChan => doRecv
  else if doneReady then (.exited, s)
  else if recvReady then doRecv
  else (.blocked, s)

/-- The outcome of one `NATSClient.Publish` call.  The constructors
`errPublish`, `errFlush` and `published` are the only ones whose control
paths reach `c.conn.Publish` — i.e. perform a transport send. -/
inductive NATSPublishResult where
  | errNoConn
  | errConnClosed
  | errMarshal (e : String)
  | errCtx (e : String)
  | errPublish (e : String)
  | errFlush (e : String)
  | published (subject : String) (payload : String)
  deriving DecidableEq

/-- Whether the call reached the transport (`c.conn.Publish`). -/
def NATSPublishResult.sendAttempted : NATSPublishResult → Bool
  | .errPublish _ => true
  | .errFlush _ => true
  | .published _ _ => true
  | _ => false

/-- The NATS connection as `NATSClient.Publish` observes it. -/
structure NATSConn where
  closed : Bool

/-- `NATSClient.Publish(ctx, subject, data)`: fail if no connection was
established, if the connection is closed, or if JSON-marshalling fails;
then return `ctx.Err()` if the context is already done; otherwise publish
the payload and flush.  `marshal` is the external `json.Marshal` applied to
`data`, `ctxErr` is `ctx.Err()` when `ctx.Done()` has fired, and `pubErr`
and `flushErr` are the transport's responses. -/
def NATSClientPublish (conn : Option NATSConn) (ctxErr : Option String)
    (marshal : Except String String) (subject : String)
    (pubErr : Option String) (flushErr : Option String) : NATSPublishResult :=
  match conn with
  | none => .errNoConn
  | some c =>
    if c.closed then .errConnClosed
    else
      match marshal with
      | .error e => .errMarshal ("failed to marshal data: " ++ e)
      | .ok payload =>
        match ctxErr with
        | some e => .errCtx e
        | none =>
          match pubErr with
          | some e => .errPublish ("failed to publish message: " ++ e)
          | none =>
            match flushErr with
            | some e => .errFlush ("failed to flush: " ++ e)
            | none => .published subject payload

-- ### Concrete programs, events and routers used in witnesses

/-- A program returning `true` on every event. -/
def pTrue : Program := fun _ => .ok (.vBool true)

/-- A program failing at runtime with the opaque error `boom`. -/
def pErrBoom : Program := fun _ => .error "boom"

/-- A program returning the integer `3` (e.g. compiled from `1 + 2`). -/
def pInt3 : Program := fun _ => .ok (.vInt 3)

/-- A program returning the empty string. -/
def pStrEmpty : Program := fun _ => .ok (.vStr "")

/-- An event with no fields. -/
def uEmpty : Update := []

/-- Two always-matching literal routes with distinct subjects, `first` mode,
one route per batch. -/
def rFirstAB : Router :=
  ⟨[⟨pTrue, SubjectTypeString, "a", none⟩,
    ⟨pTrue, SubjectTypeString, "b", none⟩], "first", 1⟩

/-- Three always-matching literal routes with a duplicated subject, `all`
mode, two routes per batch. -/
def rAllDup : Router :=
  ⟨[⟨pTrue, SubjectTypeString, "a", none⟩,
    ⟨pTrue, SubjectTypeString, "a", none⟩,
    ⟨pTrue, SubjectTypeString, "b", none⟩], "all", 2⟩

/-- A router whose only route fails while evaluating its condition. -/
def rCondErr : Router := ⟨[⟨pErrBoom, SubjectTypeString, "s", none⟩], "first", 1⟩

/-- A router whose only route matches and then fails while evaluating its
dynamic subject. -/
def rSubjErr : Router := ⟨[⟨pTrue, SubjectTypeExpr, "", some pErrBoom⟩], "first", 1⟩

/-- A compiler under which every condition compiles to `pTrue` and every
subject expression compiles to a program returning the integer `3` — the
behavior of the real expression engine on the subject source `1 + 2`, which
`NewRouter` compiles without any expected-return-kind option. -/
def Cint : ExprCompiler := ⟨fun _ => .ok pTrue, fun _ => .ok pInt3⟩

/-- A route with a dynamic subject whose expression is statically integer-
valued. -/
def routeIntSubject : Route := ⟨"true", ⟨SubjectTypeExpr, "1 + 2"⟩⟩

/-- A compiler under which every subject expression compiles to a program
returning the empty string (e.g. the source `sprintf("")`). -/
def Cempty : ExprCompiler := ⟨fun _ => .ok pTrue, fun _ => .ok pStrEmpty⟩

/-- A route with a dynamic subject whose program yields the empty string;
its declared fields pass every check of `Config.Validate`. -/
def routeEmptySubject : Route := ⟨"true", ⟨SubjectTypeExpr, "sprintf-empty"⟩⟩

/-- A compiler rejecting every condition. -/
def CcondFail : ExprCompiler :=
  ⟨fun _ => .error "unexpected token", fun _ => .ok pTrue⟩

/-- A compiler accepting conditions and rejecting subject expressions. -/
def CsubjFail : ExprCompiler :=
  ⟨fun _ => .ok pTrue, fun _ => .error "unexpected token"⟩

/-- A compiler accepting everything, with literal-friendly programs. -/
def Cok : ExprCompiler := ⟨fun _ => .ok pTrue, fun _ => .ok pStrEmpty⟩

/-- A literal route as it appears in the test configuration. -/
def routeLitA : Route := ⟨"update.message != nil", ⟨SubjectTypeString, "telegram.messages"⟩⟩

/-- A queued publish task. -/
def taskS : publishTask := ⟨"s", .vNil⟩

/-- A second literal route as it appears in the test configuration. -/
def routeLitB : Route :=
  ⟨"update.callback_query != nil", ⟨SubjectTypeString, "telegram.callbacks"⟩⟩

/-- The router `NewRouter` produces from the two literal test routes under
`Cok`, with batch size 2. -/
def rLitRouter : Router :=
  ⟨[⟨pTrue, SubjectTypeString, "telegram.messages", none⟩,
    ⟨pTrue, SubjectTypeString, "telegram.callbacks", none⟩], "first", 2⟩

-- ### Basic facts about batching

theorem range'_take (a k m : Nat) :
    (List.range' a k).take m = List.range' a (min m k) := by
  induction k generalizing a m with
  | zero => simp
  | succ k ih =>
    cases m with
    | zero => simp
    | succ m =>
      rw [List.range'_succ, List.take_succ_cons, ih]
      have hmin : min (m + 1) (k + 1) = min m k + 1 := by omega
      rw [hmin, List.range'_succ]

theorem range'_drop (a k m : Nat) :
    (List.range' a k).drop m = List.range' (a + m) (k - m) := by
  induction k generalizing a m with
  | zero => simp
  | succ k ih =>
    cases m with
    | zero => simp
    | succ m =>
      rw [List.range'_succ, List.drop_succ_cons, ih]
      congr 1 <;> omega

theorem toBatches_nil_iff {α : Type _} (W : Nat) (l : List α) :
    toBatches W l = [] ↔ l = [] := by
  cases l with
  | nil => simp [toBatches, toBatchesF]
  | cons x xs => rw [toBatches_cons]; simp

theorem toBatches_range' (W a k : Nat) (hW : 0 < W) (hk : 0 < k) :
    toBatches W (List.range' a k) =
      List.range' a (min W k) ::
        toBatches W (List.range' (a + W) (k - W)) := by
  obtain ⟨k', rfl⟩ : ∃ k', k = k' + 1 := ⟨k - 1, by omega⟩
  rw [List.range'_succ, toBatches_cons, range'_take, range'_drop]
  have h1 : a :: List.range' (a + 1) (min (W - 1) k') =
      List.range' a (min W (k' + 1)) := by
    have : min W (k' + 1) = min (W - 1) k' + 1 := by omega
    rw [this, List.range'_succ]
  have h2 : a + 1 + (W - 1) = a + W := by omega
  have h3 : k' - (W - 1) = k' + 1 - W := by omega
  rw [h1, h2, h3]

-- ### Per-route evaluation facts

theorem evalAt_ok_of_not_err {routes : List compiledRoute} {u : Update} {i : Nat}
    (h : isErrAt routes u i = false) :
    evalAt routes i u = .ok (evalPair routes u i) := by
  unfold isErrAt at h
  unfold evalPair
  cases hv : evalAt routes i u with
  | error e => rw [hv] at h; simp at h
  | ok v => simp

theorem evalAt_out_of_range {routes : List compiledRoute} {u : Update} {i : Nat}
    (h : routes.length ≤ i) : evalAt routes i u = .error "nil program" := by
  unfold evalAt
  rw [List.getD_eq_default _ _ h]
  rfl

theorem isMatchAt_lt_length {routes : List compiledRoute} {u : Update} {i : Nat}
    (h : isMatchAt routes u i = true) : i < routes.length := by
  by_contra hge
  have hout : evalAt routes i u = .error "nil program" :=
    evalAt_out_of_range (by omega)
  unfold isMatchAt evalPair at h
  rw [hout] at h
  simp at h

-- ### Draining a batch

theorem drainBatch_ok (routes : List compiledRoute) (u : Update) :
    ∀ (arrival : List Nat) (R : Nat → Bool × String) (m : Bool),
    (∀ i ∈ arrival, isErrAt routes u i = false) →
    drainBatch routes u arrival R m =
      .ok (fun j => if j ∈ arrival then evalPair routes u j else R j,
           m || arrival.any (isMatchAt routes u)) := by
  intro arrival
  induction arrival with
  | nil => intro R m _; simp [drainBatch]
  | cons idx rest ih =>
    intro R m h
    have hidx : isErrAt routes u idx = false := h idx (by simp)
    have hok := evalAt_ok_of_not_err hidx
    rcases hp : evalPair routes u idx with ⟨c, s⟩
    rw [hp] at hok
    have hm : isMatchAt routes u idx = c := by
      unfold isMatchAt; rw [hp]
    rw [drainBatch, hok]
    show drainBatch routes u rest (fun j => if j = idx then (c, s) else R j)
      (m || c) = _
    rw [ih _ _ (fun i hi => h i (by simp [hi]))]
    congr 1
    congr 1
    · funext j
      by_cases hj : j ∈ rest
      · simp [hj]
      · by_cases hj2 : j = idx
        · subst hj2; simp [hj, hp]
        · simp [hj, hj2]
    · rw [List.any_cons, hm, Bool.or_assoc]

theorem drainBatch_err (routes : List compiledRoute) (u : Update) :
    ∀ (arrival : List Nat) (R : Nat → Bool × String) (m : Bool) (i : Nat),
    i ∈ arrival → isErrAt routes u i = true →
    ∃ e, drainBatch routes u arrival R m = .error e := by
  intro arrival
  induction arrival with
  | nil => intro R m i hi; simp at hi
  | cons idx rest ih =>
    intro R m i hi herr
    rw [drainBatch]
    cases hv : evalAt routes idx u with
    | error e => exact ⟨e, rfl⟩
    | ok v =>
      obtain ⟨c, s⟩ := v
      rcases List.mem_cons.mp hi with rfl | hmem
      · unfold isErrAt at herr; rw [hv] at herr; simp at herr
      · exact ih _ _ i hmem herr

theorem drainBatch_single_err (routes : List compiledRoute) (u : Update) :
    ∀ (arrival : List Nat) (R : Nat → Bool × String) (m : Bool) (i : Nat) (e : String),
    i ∈ arrival → evalAt routes i u = .error e →
    (∀ j ∈ arrival, j ≠ i → isErrAt routes u j = false) →
    drainBatch routes u arrival R m = .error e := by
  intro arrival
  induction arrival with
  | nil => intro R m i e hi; simp at hi
  | cons idx rest ih =>
    intro R m i e hi herr hothers
    rw [drainBatch]
    by_cases hidx : idx = i
    · subst hidx; rw [herr]
    · have hne : isErrAt routes u idx = false := hothers idx (by simp) hidx
      rw [evalAt_ok_of_not_err hne]
      have hmem : i ∈ rest := by
        rcases List.mem_cons.mp hi with rfl | hmem
        · exact absurd rfl hidx
        · exact hmem
      exact ih _ _ i e hmem herr (fun j hj => hothers j (by simp [hj]))

theorem drainBatch_preserves_inv (routes : List compiledRoute) (u : Update) :
    ∀ (arrival : List Nat) (R : Nat → Bool × String) (m : Bool)
      (R' : Nat → Bool × String) (m' : Bool),
    drainBatch routes u arrival R m = .ok (R', m') →
    (∀ j, R j = (false, "") ∨ evalAt routes j u = .ok (R j)) →
    (∀ j, R' j = (false, "") ∨ evalAt routes j u = .ok (R' j)) := by
  intro arrival
  induction arrival with
  | nil =>
    intro R m R' m' h hinv
    rw [drainBatch] at h
    injection h with h
    injection h with h1 h2
    subst h1; exact hinv
  | cons idx rest ih =>
    intro R m R' m' h hinv
    rw [drainBatch] at h
    cases hv : evalAt routes idx u with
    | error e => rw [hv] at h; exact absurd h (by simp)
    | ok v =>
      obtain ⟨c, s⟩ := v
      rw [hv] at h
      refine ih _ _ _ _ h ?_
      intro j
      by_cases hj : j = idx
      · subst hj; right; simp [hv]
      · simpa [hj] using hinv j

-- ### Collection and first-occurrence deduplication

theorem mem_collectFinal :
    ∀ (l : List (Bool × String)) (seen : List String) (s : String),
    s ∈ collectFinal l seen → (true, s) ∈ l := by
  intro l
  induction l with
  | nil => intro seen s h; simp [collectFinal] at h
  | cons p rest ih =>
    intro seen s h
    obtain ⟨c, t⟩ := p
    rw [collectFinal] at h
    by_cases hc : c = true ∧ t ∉ seen
    · rw [if_pos hc] at h
      rcases List.mem_cons.mp h with rfl | h2
      · exact List.mem_cons.mpr (Or.inl (by rw [hc.1]))
      · exact List.mem_cons.mpr (Or.inr (ih _ _ h2))
    · rw [if_neg hc] at h
      exact List.mem_cons.mpr (Or.inr (ih _ _ h))

theorem collectFinal_eq_spec :
    ∀ (l : List (Bool × String)) (seen : List String),
    collectFinal l seen =
      specDedupFirstOccurrence ((l.filter (·.1)).map (·.2)) seen := by
  intro l
  induction l with
  | nil => intro seen; rfl
  | cons p rest ih =>
    intro seen
    obtain ⟨c, t⟩ := p
    cases c with
    | false =>
      rw [collectFinal, if_neg (by simp)]
      have : (((false, t) :: rest).filter (·.1)) = rest.filter (·.1) := by
        simp [List.filter]
      rw [this, ih]
    | true =>
      have : (((true, t) :: rest).filter (·.1)) = (true, t) :: rest.filter (·.1) := by
        simp [List.filter]
      rw [this, List.map_cons]
      show collectFinal ((true, t) :: rest) seen =
        specDedupFirstOccurrence (t :: (rest.filter (·.1)).map (·.2)) seen
      rw [collectFinal, specDedupFirstOccurrence]
      by_cases ht : t ∈ seen
      · rw [if_neg (by simp [ht]), if_pos ht, ih]
      · rw [if_pos (by simp [ht]), if_neg ht, ih]

theorem mem_specDedup :
    ∀ (l : List String) (seen : List String) (s : String),
    s ∈ specDedupFirstOccurrence l seen ↔ s ∈ l ∧ s ∉ seen := by
  intro l
  induction l with
  | nil => intro seen s; simp [specDedupFirstOccurrence]
  | cons t rest ih =>
    intro seen s
    rw [specDedupFirstOccurrence]
    by_cases ht : t ∈ seen
    · rw [if_pos ht, ih]
      constructor
      · exact fun ⟨h1, h2⟩ => ⟨List.mem_cons.mpr (Or.inr h1), h2⟩
      · rintro ⟨h1, h2⟩
        rcases List.mem_cons.mp h1 with rfl | h3
        · exact absurd ht h2
        · exact ⟨h3, h2⟩
    · rw [if_neg ht]
      constructor
      · intro h
        rcases List.mem_cons.mp h with rfl | h2
        · exact ⟨List.mem_cons.mpr (Or.inl rfl), ht⟩
        · have := (ih _ _).mp h2
          refine ⟨List.mem_cons.mpr (Or.inr this.1), ?_⟩
          intro hs
          exact this.2 (List.mem_cons.mpr (Or.inr hs))
      · rintro ⟨h1, h2⟩
        rcases List.mem_cons.mp h1 with rfl | h3
        · exact List.mem_cons.mpr (Or.inl rfl)
        · by_cases hst : s = t
          · subst hst; exact List.mem_cons.mpr (Or.inl rfl)
          · refine List.mem_cons.mpr (Or.inr ((ih _ _).mpr ⟨h3, ?_⟩))
            intro hs
            rcases List.mem_cons.mp hs with rfl | h4
            · exact hst rfl
            · exact h2 h4

theorem nodup_specDedup :
    ∀ (l : List String) (seen : List String),
    (specDedupFirstOccurrence l seen).Nodup := by
  intro l
  induction l with
  | nil => intro seen; simp [specDedupFirstOccurrence]
  | cons t rest ih =>
    intro seen
    rw [specDedupFirstOccurrence]
    by_cases ht : t ∈ seen
    · rw [if_pos ht]; exact ih seen
    · rw [if_neg ht]
      refine List.nodup_cons.mpr ⟨?_, ih (t :: seen)⟩
      intro h
      exact ((mem_specDedup _ _ _).mp h).2 (List.mem_cons.mpr (Or.inl rfl))

theorem routeLoop_cons_ok {routes : List compiledRoute} {u : Update}
    {mode : String} {n : Nat} {batch : List Nat} {rest : List (List Nat)}
    {R R' : Nat → Bool × String} {matched : Bool}
    (hd : drainBatch routes u batch R false = .ok (R', matched)) :
    routeLoop routes u mode n (batch :: rest) R =
      if mode = "first" && matched then
        match firstMatchSubj n R' with
        | some s => .ok [s]
        | none => routeLoop routes u mode n rest R'
      else routeLoop routes u mode n rest R' := by
  rw [routeLoop, hd]

theorem routeLoop_cons_err {routes : List compiledRoute} {u : Update}
    {mode : String} {n : Nat} {batch : List Nat} {rest : List (List Nat)}
    {R : Nat → Bool × String} {e : String}
    (hd : drainBatch routes u batch R false = .error e) :
    routeLoop routes u mode n (batch :: rest) R = .error e := by
  rw [routeLoop, hd]

theorem evalAt_ok_lt {routes : List compiledRoute} {u : Update} {i : Nat}
    {v : Bool × String} (h : evalAt routes i u = .ok v) : i < routes.length := by
  by_contra hge
  rw [evalAt_out_of_range (by omega)] at h
  exact absurd h (by simp)

/-- Every subject in a successful routing result was produced by the
evaluation of some in-range route that matched, whatever the schedule. -/
theorem routeLoop_ok_mem (routes : List compiledRoute) (u : Update)
    (mode : String) (n : Nat) :
    ∀ (sched : List (List Nat)) (R : Nat → Bool × String),
    (∀ j, R j = (false, "") ∨ evalAt routes j u = .ok (R j)) →
    ∀ out, routeLoop routes u mode n sched R = .ok out →
    ∀ s ∈ out, ∃ i, i < routes.length ∧ evalAt routes i u = .ok (true, s) := by
  intro sched
  induction sched with
  | nil =>
    intro R hinv out hloop s hs
    rw [routeLoop] at hloop
    injection hloop with hout
    subst hout
    have hmem := mem_collectFinal _ _ _ hs
    obtain ⟨j, _, hj⟩ := List.mem_map.mp hmem
    rcases hinv j with h0 | hok
    · rw [hj] at h0; exact absurd h0 (by simp)
    · rw [hj] at hok
      exact ⟨j, evalAt_ok_lt hok, hok⟩
  | cons batch rest ih =>
    intro R hinv out hloop s hs
    cases hd : drainBatch routes u batch R false with
    | error e => rw [routeLoop_cons_err hd] at hloop; exact absurd hloop (by simp)
    | ok p =>
      obtain ⟨R', matched⟩ := p
      rw [routeLoop_cons_ok hd] at hloop
      have hinv' := drainBatch_preserves_inv routes u batch R false R' matched hd hinv
      by_cases hcond : (mode = "first" && matched) = true
      · rw [if_pos hcond] at hloop
        cases hfm : firstMatchSubj n R' with
        | some s' =>
          rw [hfm] at hloop
          injection hloop with hout
          subst hout
          rcases List.mem_singleton.mp hs with rfl
          unfold firstMatchSubj at hfm
          obtain ⟨j, hfind, hjs⟩ := Option.map_eq_some'.mp hfm
          have hjt := List.find?_some hfind
          rcases hinv' j with h0 | hok
          · rw [h0] at hjt; exact absurd hjt (by simp)
          · refine ⟨j, evalAt_ok_lt hok, ?_⟩
            rw [hok]
            congr 1
            rw [← hjs, ← hjt]
        | none =>
          rw [hfm] at hloop
          exact ih R' hinv' out hloop s hs
      · rw [if_neg hcond] at hloop
        exact ih R' hinv' out hloop s hs

/-- The canonical in-index-order schedule is valid. -/
theorem validSched_canonical (W n : Nat) :
    ValidSched W n (toBatches W (List.range n)) :=
  List.forall₂_same.mpr (fun x _ => List.Perm.refl x)

theorem find?_range'_first (f : Nat → Bool) :
    ∀ (k a m : Nat), a ≤ m → m < a + k → f m = true →
    (∀ j, a ≤ j → j < m → f j = false) →
    (List.range' a k).find? f = some m := by
  intro k
  induction k with
  | zero => intro a m h1 h2 _ _; omega
  | succ k ih =>
    intro a m h1 h2 hm hbefore
    rw [List.range'_succ, List.find?_cons]
    by_cases ham : a = m
    · subst ham
      rw [hm]
    · have hfa : f a = false := hbefore a (le_refl a) (by omega)
      rw [hfa]
      exact ih (a + 1) m (by omega) (by omega) hm
        (fun j hj1 hj2 => hbefore j (by omega) hj2)

/-- In `first` mode, with no evaluation errors and `m₀` the lowest-index
matching route, the batch loop returns exactly `[subjAt m₀]`, for every
arrival order of every batch.  The induction is over the remaining batches,
which cover the index range from `p` on; the accumulated `results` hold the
evaluations below `p` (none of which matched) and the zero value above. -/
theorem routeLoop_first_main (routes : List compiledRoute) (u : Update)
    (n W : Nat) (hW : 0 < W) (m₀ : Nat) (hm₀n : m₀ < n)
    (hnoerr : ∀ i, i < n → isErrAt routes u i = false)
    (hm : isMatchAt routes u m₀ = true)
    (hleast : ∀ j, j < m₀ → isMatchAt routes u j = false) :
    ∀ (sched : List (List Nat)) (p : Nat) (R : Nat → Bool × String),
    List.Forall₂ List.Perm sched (toBatches W (List.range' p (n - p))) →
    p ≤ m₀ →
    (∀ j, j < n → j < p → R j = evalPair routes u j) →
    (∀ j, j < n → p ≤ j → R j = (false, "")) →
    routeLoop routes u "first" n sched R = .ok [subjAt routes u m₀] := by
  intro sched
  induction sched with
  | nil =>
    intro p R hsched hp _ _
    rw [List.forall₂_nil_left_iff, toBatches_nil_iff, List.range'_eq_nil] at hsched
    omega
  | cons s sched' ih =>
    intro p R hsched hp hR1 hR2
    have hk : 0 < n - p := by omega
    rw [toBatches_range' W p _ hW hk, List.forall₂_cons] at hsched
    obtain ⟨hperm, hrest⟩ := hsched
    have hsmem : ∀ j, j ∈ s ↔ (p ≤ j ∧ j < p + min W (n - p)) := by
      intro j
      rw [hperm.mem_iff, List.mem_range'_1]
    have hserr : ∀ i ∈ s, isErrAt routes u i = false := by
      intro i hi
      have := (hsmem i).mp hi
      exact hnoerr i (by omega)
    have hd := drainBatch_ok routes u s R false hserr
    rw [routeLoop_cons_ok hd]
    by_cases hq : m₀ < p + min W (n - p)
    · have hm₀s : m₀ ∈ s := (hsmem m₀).mpr ⟨hp, hq⟩
      have hany : s.any (isMatchAt routes u) = true :=
        List.any_eq_true.mpr ⟨m₀, hm₀s, hm⟩
      rw [if_pos (by simp [hany])]
      have hfind : (List.range n).find?
          (fun j => (if j ∈ s then evalPair routes u j else R j).1) = some m₀ := by
        rw [List.range_eq_range']
        refine find?_range'_first _ n 0 m₀ (Nat.zero_le _) (by omega) ?_ ?_
        · rw [if_pos hm₀s]
          exact hm
        · intro j _ hj
          by_cases hjs : j ∈ s
          · rw [if_pos hjs]
            exact hleast j hj
          · rw [if_neg hjs]
            have hjn : j < n := by omega
            rcases Nat.lt_or_ge j p with hjp | hjp
            · rw [hR1 j hjn hjp]
              exact hleast j hj
            · rw [hR2 j hjn hjp]
      unfold firstMatchSubj
      rw [hfind, Option.map_some']
      show Except.ok [(if m₀ ∈ s then evalPair routes u m₀ else R m₀).2] = _
      rw [if_pos hm₀s]
      rfl
    · have hqW : min W (n - p) = W := by omega
      have hany : s.any (isMatchAt routes u) = false := by
        rw [List.any_eq_false]
        intro x hx
        have hb := (hsmem x).mp hx
        rw [hleast x (by omega)]
        simp
      rw [if_neg (by simp [hany])]
      refine ih (p + W) _ ?_ (by omega) ?_ ?_
      · have e2 : n - p - W = n - (p + W) := by omega
        rw [e2] at hrest
        exact hrest
      · intro j hjn hjp
        by_cases hjs : j ∈ s
        · rw [if_pos hjs]
        · rw [if_neg hjs]
          have : ¬(p ≤ j ∧ j < p + min W (n - p)) := fun hc => hjs ((hsmem j).mpr hc)
          rw [hqW] at this
          exact hR1 j hjn (by omega)
      · intro j hjn hjp
        have hjs : j ∉ s := by
          intro hc
          have := (hsmem j).mp hc
          omega
        rw [if_neg hjs]
        exact hR2 j hjn (by omega)

/-- In any mode other than `first`, with no evaluation errors, the batch
loop runs every batch to completion and returns the deduplicated matched
subjects in original index order, for every arrival order of every batch. -/
theorem routeLoop_all_main (routes : List compiledRoute) (u : Update)
    (n W : Nat) (hW : 0 < W) (mode : String) (hmode : mode ≠ "first")
    (hnoerr : ∀ i, i < n → isErrAt routes u i = false) :
    ∀ (sched : List (List Nat)) (p : Nat) (R : Nat → Bool × String),
    List.Forall₂ List.Perm sched (toBatches W (List.range' p (n - p))) →
    (∀ j, j < n → j < p → R j = evalPair routes u j) →
    (∀ j, j < n → p ≤ j → R j = (false, "")) →
    routeLoop routes u mode n sched R =
      .ok (collectFinal ((List.range n).map (evalPair routes u)) []) := by
  intro sched
  induction sched with
  | nil =>
    intro p R hsched hR1 _
    rw [List.forall₂_nil_left_iff, toBatches_nil_iff, List.range'_eq_nil] at hsched
    rw [routeLoop]
    congr 2
    refine List.map_congr_left ?_
    intro j hj
    have hjn : j < n := List.mem_range.mp hj
    exact hR1 j hjn (by omega)
  | cons s sched' ih =>
    intro p R hsched hR1 hR2
    rcases Nat.eq_zero_or_pos (n - p) with hk | hk
    · rw [hk] at hsched
      rw [show List.range' p 0 = [] from rfl] at hsched
      rw [show toBatches W ([] : List Nat) = [] from rfl] at hsched
      rw [List.forall₂_nil_right_iff] at hsched
      exact absurd hsched (by simp)
    rw [toBatches_range' W p _ hW hk, List.forall₂_cons] at hsched
    obtain ⟨hperm, hrest⟩ := hsched
    have hsmem : ∀ j, j ∈ s ↔ (p ≤ j ∧ j < p + min W (n - p)) := by
      intro j
      rw [hperm.mem_iff, List.mem_range'_1]
    have hserr : ∀ i ∈ s, isErrAt routes u i = false := by
      intro i hi
      have := (hsmem i).mp hi
      have hmin : min W (n - p) ≤ n - p := by omega
      exact hnoerr i (by omega)
    have hd := drainBatch_ok routes u s R false hserr
    rw [routeLoop_cons_ok hd]
    rw [if_neg (by simp [hmode])]
    refine ih (p + W) _ ?_ ?_ ?_
    · have e2 : n - p - W = n - (p + W) := by omega
      rw [e2] at hrest
      exact hrest
    · intro j hjn hjp
      by_cases hjs : j ∈ s
      · rw [if_pos hjs]
      · rw [if_neg hjs]
        have : ¬(p ≤ j ∧ j < p + min W (n - p)) := fun hc => hjs ((hsmem j).mpr hc)
        have hjp' : j < p := by omega
        exact hR1 j hjn hjp'
    · intro j hjn hjp
      have hjs : j ∉ s := by
        intro hc
        have := (hsmem j).mp hc
        omega
      rw [if_neg hjs]
      exact hR2 j hjn (by omega)

/-- If some route `i` whose evaluation fails lies in a region the loop
reaches — always, except when `first` mode can return early on a match in a
batch strictly before `i`'s — the loop aborts with some evaluation error
(which of several same-batch failures reports first depends on the arrival
order). -/
theorem routeLoop_err_any (routes : List compiledRoute) (u : Update)
    (n W : Nat) (hW : 0 < W) (mode : String) (i : Nat)
    (hin : i < n)
    (herr : isErrAt routes u i = true)
    (hfirst : mode = "first" →
      ∀ j, j < n → isMatchAt routes u j = true → i / W ≤ j / W) :
    ∀ (sched : List (List Nat)) (c : Nat) (R : Nat → Bool × String),
    List.Forall₂ List.Perm sched (toBatches W (List.range' (c * W) (n - c * W))) →
    c ≤ i / W →
    ∃ e, routeLoop routes u mode n sched R = .error e := by
  intro sched
  induction sched with
  | nil =>
    intro c R hsched hc
    rw [List.forall₂_nil_left_iff, toBatches_nil_iff, List.range'_eq_nil] at hsched
    have h1 : c * W ≤ i / W * W := Nat.mul_le_mul_right W hc
    have h2 : i / W * W ≤ i := Nat.div_mul_le_self i W
    omega
  | cons s sched' ih =>
    intro c R hsched hc
    have h1 : c * W ≤ i / W * W := Nat.mul_le_mul_right W hc
    have h2 : i / W * W ≤ i := Nat.div_mul_le_self i W
    have hk : 0 < n - c * W := by omega
    rw [toBatches_range' W _ _ hW hk, List.forall₂_cons] at hsched
    obtain ⟨hperm, hrest⟩ := hsched
    have hsmem : ∀ j, j ∈ s ↔ (c * W ≤ j ∧ j < c * W + min W (n - c * W)) := by
      intro j
      rw [hperm.mem_iff, List.mem_range'_1]
    by_cases hbe : ∃ j, j ∈ s ∧ isErrAt routes u j = true
    · obtain ⟨j, hjs, hje⟩ := hbe
      obtain ⟨e, hd⟩ := drainBatch_err routes u s R false j hjs hje
      exact ⟨e, routeLoop_cons_err hd⟩
    · push_neg at hbe
      have hserr : ∀ j ∈ s, isErrAt routes u j = false := by
        intro j hj
        cases hq : isErrAt routes u j with
        | false => rfl
        | true => exact absurd hq (hbe j hj)
      have hins : i ∉ s := fun hc2 => absurd herr (hbe i hc2)
      have hci : c + 1 ≤ i / W := by
        rcases Nat.lt_or_ge c (i / W) with hlt | hge
        · omega
        · exfalso
          have hceq : c = i / W := by omega
          refine hins ((hsmem i).mpr ⟨by omega, ?_⟩)
          have h3 : W * (i / W) + i % W = i := Nat.div_add_mod i W
          have h4 : i % W < W := Nat.mod_lt i hW
          have h5 : W * (i / W) = i / W * W := Nat.mul_comm W (i / W)
          subst hceq
          omega
      have hd := drainBatch_ok routes u s R false hserr
      rw [routeLoop_cons_ok hd]
      have hbranch : ∃ e, routeLoop routes u mode n sched'
          (fun j => if j ∈ s then evalPair routes u j else R j) = .error e := by
        refine ih (c + 1) _ ?_ hci
        have e1 : (c + 1) * W = c * W + W := by ring
        rw [e1, show n - (c * W + W) = n - c * W - W by omega]
        exact hrest
      by_cases hmode : mode = "first"
      · have hany : s.any (isMatchAt routes u) = false := by
          rw [List.any_eq_false]
          intro x hx
          have hb := (hsmem x).mp hx
          intro hxm
          have hx1 := hfirst hmode x (by omega) hxm
          have hx2 : x / W = c := by
            refine Nat.div_eq_of_lt_le (by omega) ?_
            have e1 : (c + 1) * W = c * W + W := by ring
            omega
          have h3 : c * W + W ≤ i / W * W := by
            have := Nat.mul_le_mul_right W hci
            have e1 : (c + 1) * W = c * W + W := by ring
            omega
          omega
        rw [if_neg (by simp [hany])]
        exact hbranch
      · rw [if_neg (by simp [hmode])]
        exact hbranch

/-- If the single failing route `i` lies in a batch that the loop reaches —
always, except when `first` mode returns early, which requires a match in a
strictly earlier batch — then the loop aborts with exactly the evaluation's
own error, unwrapped. -/
theorem routeLoop_err_main (routes : List compiledRoute) (u : Update)
    (n W : Nat) (hW : 0 < W) (mode : String) (i : Nat) (e : String)
    (hin : i < n)
    (herr : evalAt routes i u = .error e)
    (hsingle : ∀ j, j < n → j ≠ i → isErrAt routes u j = false)
    (hfirst : mode = "first" →
      ∀ j, j < n → isMatchAt routes u j = true → i / W ≤ j / W) :
    ∀ (sched : List (List Nat)) (c : Nat) (R : Nat → Bool × String),
    List.Forall₂ List.Perm sched (toBatches W (List.range' (c * W) (n - c * W))) →
    c ≤ i / W →
    routeLoop routes u mode n sched R = .error e := by
  intro sched
  induction sched with
  | nil =>
    intro c R hsched hc
    rw [List.forall₂_nil_left_iff, toBatches_nil_iff, List.range'_eq_nil] at hsched
    have h1 : c * W ≤ i / W * W := Nat.mul_le_mul_right W hc
    have h2 : i / W * W ≤ i := Nat.div_mul_le_self i W
    omega
  | cons s sched' ih =>
    intro c R hsched hc
    have h1 : c * W ≤ i / W * W := Nat.mul_le_mul_right W hc
    have h2 : i / W * W ≤ i := Nat.div_mul_le_self i W
    have hk : 0 < n - c * W := by omega
    rw [toBatches_range' W _ _ hW hk, List.forall₂_cons] at hsched
    obtain ⟨hperm, hrest⟩ := hsched
    have hsmem : ∀ j, j ∈ s ↔ (c * W ≤ j ∧ j < c * W + min W (n - c * W)) := by
      intro j
      rw [hperm.mem_iff, List.mem_range'_1]
    by_cases hib : i < c * W + min W (n - c * W)
    · have his : i ∈ s := (hsmem i).mpr ⟨by omega, hib⟩
      have hothers : ∀ j ∈ s, j ≠ i → isErrAt routes u j = false := by
        intro j hj hne
        have := (hsmem j).mp hj
        exact hsingle j (by omega) hne
      have hd := drainBatch_single_err routes u s R false i e his herr hothers
      rw [routeLoop_cons_err hd]
    · have hqW : min W (n - c * W) = W := by omega
      rw [hqW] at hib hsmem
      have hci : c + 1 ≤ i / W := by
        have e1 : (c + 1) * W = c * W + W := Nat.succ_mul c W
        refine (Nat.le_div_iff_mul_le hW).mpr ?_
        omega
      have hserr : ∀ j ∈ s, isErrAt routes u j = false := by
        intro j hj
        have hb := (hsmem j).mp hj
        exact hsingle j (by omega) (by omega)
      have hd := drainBatch_ok routes u s R false hserr
      rw [routeLoop_cons_ok hd]
      have hbranch : routeLoop routes u mode n sched'
          (fun j => if j ∈ s then evalPair routes u j else R j) = .error e := by
        refine ih (c + 1) _ ?_ hci
        have e1 : (c + 1) * W = c * W + W := by ring
        rw [e1, show n - (c * W + W) = n - c * W - W by omega]
        exact hrest
      by_cases hmode : mode = "first"
      · have hany : s.any (isMatchAt routes u) = false := by
          rw [List.any_eq_false]
          intro x hx
          have hb := (hsmem x).mp hx
          intro hxm
          have hx1 := hfirst hmode x (by omega) hxm
          have hx2 : x / W = c := by
            refine Nat.div_eq_of_lt_le (by omega) ?_
            have e1 : (c + 1) * W = c * W + W := Nat.succ_mul c W
            omega
          omega
        rw [if_neg (by simp [hany])]
        exact hbranch
      · rw [if_neg (by simp [hmode])]
        exact hbranch

/-- Two runs of the batch loop over the same batches, with possibly
different per-batch arrival orders, either return identical values or both
abort with an error (the arrival order can only influence which of several
failing evaluations in one batch reports first). -/
theorem routeLoop_sched_agree (routes : List compiledRoute) (u : Update)
    (mode : String) (n : Nat) :
    ∀ (canon sched₁ sched₂ : List (List Nat)) (R : Nat → Bool × String),
    List.Forall₂ List.Perm sched₁ canon →
    List.Forall₂ List.Perm sched₂ canon →
    routeLoop routes u mode n sched₁ R = routeLoop routes u mode n sched₂ R ∨
    (∃ e₁ e₂, routeLoop routes u mode n sched₁ R = .error e₁ ∧
              routeLoop routes u mode n sched₂ R = .error e₂) := by
  intro canon
  induction canon with
  | nil =>
    intro sched₁ sched₂ R h1 h2
    rw [List.forall₂_nil_right_iff] at h1 h2
    subst h1
    subst h2
    left
    rfl
  | cons b bs ih =>
    intro sched₁ sched₂ R h1 h2
    rw [List.forall₂_cons_right_iff] at h1 h2
    obtain ⟨s₁, t₁, hp1, hr1, rfl⟩ := h1
    obtain ⟨s₂, t₂, hp2, hr2, rfl⟩ := h2
    by_cases hok : ∀ j ∈ b, isErrAt routes u j = false
    · have hd1 := drainBatch_ok routes u s₁ R false
        (fun i hi => hok i (hp1.mem_iff.mp hi))
      have hd2 := drainBatch_ok routes u s₂ R false
        (fun i hi => hok i (hp2.mem_iff.mp hi))
      rw [routeLoop_cons_ok hd1, routeLoop_cons_ok hd2]
      have hfun : (fun j => if j ∈ s₁ then evalPair routes u j else R j)
          = (fun j => if j ∈ s₂ then evalPair routes u j else R j) := by
        funext j
        by_cases hj : j ∈ b
        · rw [if_pos (hp1.mem_iff.mpr hj), if_pos (hp2.mem_iff.mpr hj)]
        · rw [if_neg (fun hc => hj (hp1.mem_iff.mp hc)),
              if_neg (fun hc => hj (hp2.mem_iff.mp hc))]
      have hanyeq : s₁.any (isMatchAt routes u) = s₂.any (isMatchAt routes u) := by
        cases hq : s₂.any (isMatchAt routes u) with
        | false =>
          rw [List.any_eq_false] at hq ⊢
          intro x hx
          exact hq x (hp2.mem_iff.mpr (hp1.mem_iff.mp hx))
        | true =>
          rw [List.any_eq_true] at hq ⊢
          obtain ⟨x, hx, hxm⟩ := hq
          exact ⟨x, hp1.mem_iff.mpr (hp2.mem_iff.mp hx), hxm⟩
      rw [hfun, hanyeq]
      by_cases hcond :
          (decide (mode = "first") && (false || s₂.any (isMatchAt routes u))) = true
      · rw [if_pos hcond, if_pos hcond]
        cases hfm : firstMatchSubj n
            (fun j => if j ∈ s₂ then evalPair routes u j else R j) with
        | some s => left; rfl
        | none => exact ih t₁ t₂ _ hr1 hr2
      · rw [if_neg hcond, if_neg hcond]
        exact ih t₁ t₂ _ hr1 hr2
    · push_neg at hok
      obtain ⟨j, hjb, hje⟩ := hok
      have hjet : isErrAt routes u j = true := by
        cases hq : isErrAt routes u j with
        | false => exact absurd hq hje
        | true => rfl
      obtain ⟨e₁, hd1⟩ := drainBatch_err routes u s₁ R false j
        (hp1.mem_iff.mpr hjb) hjet
      obtain ⟨e₂, hd2⟩ := drainBatch_err routes u s₂ R false j
        (hp2.mem_iff.mpr hjb) hjet
      right
      exact ⟨e₁, e₂, routeLoop_cons_err hd1, routeLoop_cons_err hd2⟩

-- ### Compilation characterization

/-- Both expression compilations of a route succeed (whether `compileRoute`
succeeds or fails does not depend on the index argument, which only feeds
the error message). -/
def routeCompiles (C : ExprCompiler) (route : Route) : Prop :=
  (∃ p, C.compileBool route.Condition = .ok p) ∧
  (route.Subject.Ty = SubjectTypeExpr →
    ∃ q, C.compileAny route.Subject.Value = .ok q)

theorem compileRoute_cond_ok {C : ExprCompiler} {i : Nat} {route : Route}
    {p : Program} (hp : C.compileBool route.Condition = .ok p) :
    compileRoute C i route =
      if route.Subject.Ty = SubjectTypeString then
        .ok ⟨p, route.Subject.Ty, route.Subject.Value, none⟩
      else if route.Subject.Ty = SubjectTypeExpr then
        match C.compileAny route.Subject.Value with
        | .error e =>
            .error ("failed to compile subject expression for route[" ++
              toString i ++ "]: " ++ e)
        | .ok q => .ok ⟨p, route.Subject.Ty, "", some q⟩
      else
        .ok ⟨p, route.Subject.Ty, "", none⟩ := by
  rw [compileRoute, hp]

theorem compileRoute_ok (C : ExprCompiler) (i : Nat) (route : Route)
    (h : routeCompiles C route) : ∃ cr, compileRoute C i route = .ok cr := by
  obtain ⟨⟨p, hp⟩, hq⟩ := h
  rw [compileRoute_cond_ok hp]
  by_cases h1 : route.Subject.Ty = SubjectTypeString
  · rw [if_pos h1]
    exact ⟨_, rfl⟩
  · rw [if_neg h1]
    by_cases h2 : route.Subject.Ty = SubjectTypeExpr
    · rw [if_pos h2]
      obtain ⟨q, hq2⟩ := hq h2
      rw [hq2]
      exact ⟨_, rfl⟩
    · rw [if_neg h2]
      exact ⟨_, rfl⟩

theorem compileRoutesGo_cons_ok {C : ExprCompiler} {i : Nat} {route : Route}
    {rest : List Route} {cr : compiledRoute}
    (hcr : compileRoute C i route = .ok cr) :
    compileRoutesGo C i (route :: rest) =
      match compileRoutesGo C (i + 1) rest with
      | .error e => .error e
      | .ok crs => .ok (cr :: crs) := by
  rw [compileRoutesGo, hcr]

theorem compileRoutesGo_cons_err {C : ExprCompiler} {i : Nat} {route : Route}
    {rest : List Route} {e : String}
    (hcr : compileRoute C i route = .error e) :
    compileRoutesGo C i (route :: rest) = .error e := by
  rw [compileRoutesGo, hcr]

/-- If every route before the failing one compiles, the compilation loop
reports the failing route's own error. -/
theorem compileRoutesGo_append_err (C : ExprCompiler) :
    ∀ (pre : List Route) (route : Route) (post : List Route) (i : Nat) (e : String),
    (∀ r ∈ pre, routeCompiles C r) →
    compileRoute C (i + pre.length) route = .error e →
    compileRoutesGo C i (pre ++ route :: post) = .error e := by
  intro pre
  induction pre with
  | nil =>
    intro route post i e _ herr
    rw [List.nil_append]
    rw [List.length_nil, Nat.add_zero] at herr
    exact compileRoutesGo_cons_err herr
  | cons r pre' ih =>
    intro route post i e hpre herr
    rw [List.cons_append]
    obtain ⟨cr, hcr⟩ := compileRoute_ok C i r (hpre r (by simp))
    rw [compileRoutesGo_cons_ok hcr]
    have e1 : i + 1 + pre'.length = i + (r :: pre').length := by
      rw [List.length_cons]
      omega
    rw [ih route post (i + 1) e (fun x hx => hpre x (by simp [hx])) (by rw [e1]; exact herr)]

/-- The compiled relation between an input route and its compiled form. -/
def compiledFrom (C : ExprCompiler) (route : Route) (cr : compiledRoute) : Prop :=
  (∃ p, C.compileBool route.Condition = .ok p ∧ cr.condition = p) ∧
  cr.subjectType = route.Subject.Ty ∧
  (route.Subject.Ty = SubjectTypeString →
    cr.subjectStatic = route.Subject.Value ∧ cr.subjectExpr = none) ∧
  (route.Subject.Ty = SubjectTypeExpr →
    ∃ q, C.compileAny route.Subject.Value = .ok q ∧ cr.subjectExpr = some q)

theorem compileRoute_compiledFrom {C : ExprCompiler} {i : Nat} {route : Route}
    {cr : compiledRoute} (hcr : compileRoute C i route = .ok cr) :
    compiledFrom C route cr := by
  cases hb : C.compileBool route.Condition with
  | error e => rw [compileRoute, hb] at hcr; exact absurd hcr (by simp)
  | ok p =>
    rw [compileRoute_cond_ok hb] at hcr
    by_cases h1 : route.Subject.Ty = SubjectTypeString
    · rw [if_pos h1] at hcr
      injection hcr with hcr
      subst hcr
      refine ⟨⟨p, hb, rfl⟩, rfl, fun _ => ⟨rfl, rfl⟩, fun hx => ?_⟩
      exact absurd (h1.symm.trans hx) (by decide)
    · rw [if_neg h1] at hcr
      by_cases h2 : route.Subject.Ty = SubjectTypeExpr
      · rw [if_pos h2] at hcr
        cases ha : C.compileAny route.Subject.Value with
        | error e => rw [ha] at hcr; exact absurd hcr (by simp)
        | ok q =>
          rw [ha] at hcr
          injection hcr with hcr
          subst hcr
          exact ⟨⟨p, hb, rfl⟩, rfl, fun hx => absurd hx h1, fun _ => ⟨q, ha, rfl⟩⟩
      · rw [if_neg h2] at hcr
        injection hcr with hcr
        subst hcr
        exact ⟨⟨p, hb, rfl⟩, rfl, fun hx => absurd hx h1, fun hx => absurd hx h2⟩

theorem compileRoutesGo_forall₂ (C : ExprCompiler) :
    ∀ (routes : List Route) (i : Nat) (crs : List compiledRoute),
    compileRoutesGo C i routes = .ok crs →
    List.Forall₂ (compiledFrom C) routes crs := by
  intro routes
  induction routes with
  | nil =>
    intro i crs h
    rw [compileRoutesGo] at h
    injection h with h
    subst h
    exact List.Forall₂.nil
  | cons route rest ih =>
    intro i crs h
    cases hcr : compileRoute C i route with
    | error e => rw [compileRoutesGo_cons_err hcr] at h; exact absurd h (by simp)
    | ok cr =>
      rw [compileRoutesGo_cons_ok hcr] at h
      cases hrest : compileRoutesGo C (i + 1) rest with
      | error e => rw [hrest] at h; exact absurd h (by simp)
      | ok crs' =>
        rw [hrest] at h
        injection h with h
        subst h
        exact List.Forall₂.cons (compileRoute_compiledFrom hcr) (ih (i + 1) crs' hrest)

-- ### Claim theorems

/-- Claim C2 (code bug): after `Publisher.Close()` has completed, the state
has both the cancellation flag set and the task channel closed, so the
`select` in `Publisher.Publish` has two ready cases; when the runtime picks
the channel-send case, the send on the closed channel panics instead of
being a silent no-op.  Only the cancellation case yields the claimed silent
drop. -/
theorem publish_after_close_can_panic :
    ((NewPublisherState 1).closeSignal.publishStep taskS .taskChan).1
      = .panicked ∧
    ((NewPublisherState 1).closeSignal.publishStep taskS .ctxDone).1
      = .dropped :=
  ⟨rfl, rfl⟩

/-- Claim C8 (counterexample): with cancellation signalled, the channel
closed and one task still queued — the state `Close` leaves behind when a
task was pending — a worker step whose `select` picks the channel case
dequeues and processes that task, so cancellation does not stop workers
from picking up new tasks. -/
theorem worker_dequeues_after_cancel :
    (PublisherState.mk true true [taskS] 2).workerStep .taskChan
      = (.processed taskS, PublisherState.mk true true [] 2) :=
  rfl

/-- Claim C8 (amended): once the cancellation signal has fired, a worker
step never blocks; it returns whenever the `select` picks the cancellation
case (and also when the queue is drained and closed), and otherwise it may
still dequeue the task at the head of the queue. -/
theorem worker_step_after_cancel (s : PublisherState) (pick : SelectBranch)
    (hc : s.cancelled = true) :
    (pick = .ctxDone → (s.workerStep pick).1 = .exited) ∧
    (s.workerStep pick).1 ≠ .blocked ∧
    ((s.workerStep pick).1 = .exited ∨
      ∃ t rest, s.queue = t :: rest ∧ (s.workerStep pick).1 = .processed t) := by
  cases hq : s.queue with
  | nil =>
    by_cases hcl : s.tasksClosed = true
    · cases pick <;>
        simp [PublisherState.workerStep, hc, hq, hcl]
    · have hcl' : s.tasksClosed = false := by
        cases h : s.tasksClosed
        · rfl
        · exact absurd h hcl
      cases pick <;>
        simp [PublisherState.workerStep, hc, hq, hcl']
  | cons t rest =>
    cases pick with
    | ctxDone => simp [PublisherState.workerStep, hc, hq]
    | taskChan =>
      refine ⟨by simp, ?_, Or.inr ⟨t, rest, rfl, ?_⟩⟩ <;>
        simp [PublisherState.workerStep, hc, hq]

/-- Claim C8 (witness for the amended theorem). -/
theorem worker_step_after_cancel_witness :
    (PublisherState.mk true true [taskS] 2).cancelled = true ∧
    ((PublisherState.mk true true [taskS] 2).workerStep .taskChan).1 ≠ .blocked :=
  ⟨rfl, (worker_step_after_cancel (PublisherState.mk true true [taskS] 2)
    .taskChan rfl).2.1⟩

/-- Claim C10: `NATSClient.Publish` returns an error and performs no
transport send when no connection was established, when the connection is
closed, when marshalling the payload fails, or — all earlier checks passing
— when the context is already done, in which case it returns the context's
error before attempting the publish. -/
theorem natsclient_publish_guards (conn : Option NATSConn)
    (ctxErr : Option String) (marshal : Except String String)
    (subject : String) (pubErr flushErr : Option String) :
    (conn = none →
      NATSClientPublish conn ctxErr marshal subject pubErr flushErr
        = .errNoConn) ∧
    (∀ c, conn = some c → c.closed = true →
      NATSClientPublish conn ctxErr marshal subject pubErr flushErr
        = .errConnClosed) ∧
    (∀ c e, conn = some c → c.closed = false → marshal = .error e →
      NATSClientPublish conn ctxErr marshal subject pubErr flushErr
        = .errMarshal ("failed to marshal data: " ++ e)) ∧
    (∀ c payload e, conn = some c → c.closed = false → marshal = .ok payload →
      ctxErr = some e →
      NATSClientPublish conn ctxErr marshal subject pubErr flushErr
        = .errCtx e) ∧
    ((conn = none ∨ (∃ c, conn = some c ∧ c.closed = true) ∨
        (∃ e, marshal = .error e) ∨ (∃ e, ctxErr = some e)) →
      (NATSClientPublish conn ctxErr marshal subject pubErr flushErr).sendAttempted
        = false) := by
  refine ⟨?_, ?_, ?_, ?_, ?_⟩
  · intro h
    subst h
    rfl
  · intro c hc hcl
    subst hc
    simp [NATSClientPublish, hcl]
  · intro c e hc hcl hm
    subst hc
    subst hm
    simp [NATSClientPublish, hcl]
  · intro c payload e hc hcl hm hctx
    subst hc
    subst hm
    subst hctx
    simp [NATSClientPublish, hcl]
  · intro h
    cases conn with
    | none => rfl
    | some c =>
      cases hcl : c.closed with
      | true => simp [NATSClientPublish, hcl, NATSPublishResult.sendAttempted]
      | false =>
        cases hm : marshal with
        | error e => simp [NATSClientPublish, hcl, hm, NATSPublishResult.sendAttempted]
        | ok payload =>
          cases hctx : ctxErr with
          | some e => simp [NATSClientPublish, hcl, hm, hctx, NATSPublishResult.sendAttempted]
          | none =>
            exfalso
            rcases h with h | ⟨c', hc', hcl'⟩ | ⟨e, he⟩ | ⟨e, he⟩
            · exact absurd h (by simp)
            · injection hc' with hc'
              subst hc'
              rw [hcl] at hcl'
              exact absurd hcl' (by simp)
            · rw [hm] at he
              exact absurd he (by simp)
            · rw [hctx] at he
              exact absurd he (by simp)

/-- Claim C10 (witness): publishing with no established connection fails
with the no-connection error, and none of the four guard scenarios reaches
the transport. -/
theorem natsclient_publish_guards_witness :
    NATSClientPublish none none (.ok "x") "s" none none = .errNoConn ∧
    (NATSClientPublish none none (.ok "x") "s" none none).sendAttempted = false :=
  ⟨(natsclient_publish_guards none none (.ok "x") "s" none none).1 rfl,
   (natsclient_publish_guards none none (.ok "x") "s" none none).2.2.2.2
     (Or.inl rfl)⟩

/-- Claim C1: in `first` mode, for every compiled route list, every event
on which no evaluation errors occur and at least two routes match, every
positive `routeWorkers` bound (the configuration validator requires
`route_workers > 0`; the source loop does not terminate at zero), and every
per-batch arrival order, `Route` returns the singleton holding exactly the
subject of the lowest-indexed matching route `m₀` — never a higher-indexed
match. -/
theorem route_first_mode_lowest_index (r : Router) (u : Update)
    (hmode : r.mode = "first") (hW : 0 < r.routeWorkers)
    (sched : List (List Nat))
    (hsched : ValidSched r.routeWorkers r.routes.length sched)
    (hnoerr : ∀ i, i < r.routes.length → isErrAt r.routes u i = false)
    (m₀ j : Nat)
    (hm : isMatchAt r.routes u m₀ = true)
    (hj : m₀ < j) (hjm : isMatchAt r.routes u j = true)
    (hleast : ∀ l, l < m₀ → isMatchAt r.routes u l = false) :
    r.RouteSched sched u = .ok [subjAt r.routes u m₀] := by
  have hm₀n : m₀ < r.routes.length := isMatchAt_lt_length hm
  unfold Router.RouteSched
  rw [hmode]
  refine routeLoop_first_main r.routes u r.routes.length r.routeWorkers hW
    m₀ hm₀n hnoerr hm hleast sched 0 _ ?_ (by omega) ?_ ?_
  · unfold ValidSched at hsched
    rw [List.range_eq_range'] at hsched
    exact hsched
  · intro j' _ hj'
    omega
  · intro j' _ _
    rfl

/-- Claim C1 (witness): two always-matching literal routes in `first` mode
with batch size 1 route to exactly the first route's subject. -/
theorem route_first_mode_lowest_index_witness :
    rFirstAB.mode = "first" ∧ 0 < rFirstAB.routeWorkers ∧
    isMatchAt rFirstAB.routes uEmpty 0 = true ∧
    isMatchAt rFirstAB.routes uEmpty 1 = true ∧
    rFirstAB.RouteSched [[0], [1]] uEmpty = .ok ["a"] := by
  refine ⟨rfl, by decide, rfl, rfl, ?_⟩
  exact route_first_mode_lowest_index rFirstAB uEmpty rfl (by decide) [[0], [1]]
    (validSched_canonical 1 2) (by decide) 0 1 rfl (by decide) rfl
    (fun l hl => absurd hl (by omega))

/-- Claim C3 (counterexample): the batched `Route` propagates evaluation
errors unchanged, so a condition-stage failure and a subject-stage failure
with the same underlying error produce identical `Route` errors — the error
does not identify which stage failed. -/
theorem route_error_stage_not_identified :
    rCondErr.Route uEmpty = .error "boom" ∧
    rSubjErr.Route uEmpty = .error "boom" :=
  ⟨rfl, rfl⟩

/-- Claim C3 (amended): an evaluation failure that the call actually
reaches — always, unless `first` mode returns early on a match in a batch
strictly before the failing route's batch, in which case that evaluation
never runs — aborts `Route` with an error and no routing result for the
event; when the failing route is unique, the returned error is exactly the
evaluation's own error, propagated unchanged, so it does not identify which
stage (condition or subject) failed. -/
theorem route_eval_error_aborts (r : Router) (u : Update)
    (hW : 0 < r.routeWorkers) (sched : List (List Nat))
    (hsched : ValidSched r.routeWorkers r.routes.length sched) :
    (∀ i, i < r.routes.length → isErrAt r.routes u i = true →
      (r.mode = "first" → ∀ j, j < r.routes.length →
        isMatchAt r.routes u j = true →
        i / r.routeWorkers ≤ j / r.routeWorkers) →
      ∃ e, r.RouteSched sched u = .error e) ∧
    (∀ i e, i < r.routes.length →
      evalAt r.routes i u = .error e →
      (∀ j, j < r.routes.length → j ≠ i → isErrAt r.routes u j = false) →
      (r.mode = "first" → ∀ j, j < r.routes.length →
        isMatchAt r.routes u j = true →
        i / r.routeWorkers ≤ j / r.routeWorkers) →
      r.RouteSched sched u = .error e) := by
  have hs : List.Forall₂ List.Perm sched
      (toBatches r.routeWorkers
        (List.range' (0 * r.routeWorkers)
          (r.routes.length - 0 * r.routeWorkers))) := by
    unfold ValidSched at hsched
    rw [List.range_eq_range'] at hsched
    simpa using hsched
  constructor
  · intro i hin herr hfirst
    exact routeLoop_err_any r.routes u r.routes.length r.routeWorkers hW
      r.mode i hin herr hfirst sched 0 _ hs (Nat.zero_le _)
  · intro i e hin herr hsingle hfirst
    exact routeLoop_err_main r.routes u r.routes.length r.routeWorkers hW
      r.mode i e hin herr hsingle hfirst sched 0 _ hs (Nat.zero_le _)

/-- Claim C3 (witness for the amended theorem): a single route whose
condition fails with `boom` makes `Route` return exactly `boom`. -/
theorem route_eval_error_aborts_witness :
    evalAt rCondErr.routes 0 uEmpty = .error "boom" ∧
    rCondErr.RouteSched [[0]] uEmpty = .error "boom" := by
  refine ⟨rfl, ?_⟩
  exact (route_eval_error_aborts rCondErr uEmpty (by decide) [[0]]
    (validSched_canonical 1 1)).2 0 "boom" (by decide) rfl
    (by decide)
    (fun _ j _ _ => Nat.zero_le _)

theorem collectFinal_eval_eq (routes : List compiledRoute) (u : Update) (n : Nat) :
    collectFinal ((List.range n).map (evalPair routes u)) [] =
      specDedupFirstOccurrence
        (((List.range n).filter (isMatchAt routes u)).map (subjAt routes u)) [] := by
  rw [collectFinal_eq_spec, List.filter_map, List.map_map]
  rfl

/-- Claim C4: in `all` mode, for every compiled route list, every event on
which no evaluation errors occur, every positive batching bound and every
arrival order, `Route` evaluates every route and returns the matched
subjects deduplicated in original index order: the result is exactly the
first-occurrence deduplication of the matched subjects listed by ascending
route index, it contains no duplicates, and it contains a subject iff some
matching route produced it. -/
theorem route_all_mode_dedup (r : Router) (u : Update)
    (hmode : r.mode = "all") (hW : 0 < r.routeWorkers)
    (sched : List (List Nat))
    (hsched : ValidSched r.routeWorkers r.routes.length sched)
    (hnoerr : ∀ i, i < r.routes.length → isErrAt r.routes u i = false) :
    r.RouteSched sched u =
      .ok (specDedupFirstOccurrence
        (((List.range r.routes.length).filter (isMatchAt r.routes u)).map
          (subjAt r.routes u)) []) ∧
    (specDedupFirstOccurrence
        (((List.range r.routes.length).filter (isMatchAt r.routes u)).map
          (subjAt r.routes u)) []).Nodup ∧
    (∀ s, s ∈ specDedupFirstOccurrence
        (((List.range r.routes.length).filter (isMatchAt r.routes u)).map
          (subjAt r.routes u)) [] ↔
      ∃ i, i < r.routes.length ∧ isMatchAt r.routes u i = true ∧
        subjAt r.routes u i = s) := by
  refine ⟨?_, nodup_specDedup _ _, ?_⟩
  · unfold Router.RouteSched
    have hne : r.mode ≠ "first" := by
      rw [hmode]
      decide
    have hs : List.Forall₂ List.Perm sched
        (toBatches r.routeWorkers
          (List.range' 0 (r.routes.length - 0))) := by
      unfold ValidSched at hsched
      rw [List.range_eq_range'] at hsched
      exact hsched
    rw [routeLoop_all_main r.routes u r.routes.length r.routeWorkers hW r.mode
      hne hnoerr sched 0 (fun _ => (false, "")) hs
      (fun j' _ hj' => absurd hj' (by omega)) (fun j' _ _ => rfl)]
    rw [collectFinal_eval_eq]
  · intro s
    rw [mem_specDedup]
    constructor
    · rintro ⟨hmem, -⟩
      obtain ⟨i, hif, hsubj⟩ := List.mem_map.mp hmem
      obtain ⟨hir, him⟩ := List.mem_filter.mp hif
      exact ⟨i, List.mem_range.mp hir, him, hsubj⟩
    · rintro ⟨i, hi, him, hsubj⟩
      refine ⟨List.mem_map.mpr ⟨i, List.mem_filter.mpr
        ⟨List.mem_range.mpr hi, him⟩, hsubj⟩, ?_⟩
      simp

/-- Claim C4 (witness): three always-matching literal routes with subjects
`a`, `a`, `b` in `all` mode with batch size 2 yield exactly `[a, b]`. -/
theorem route_all_mode_dedup_witness :
    rAllDup.mode = "all" ∧
    rAllDup.RouteSched [[0, 1], [2]] uEmpty = .ok ["a", "b"] := by
  refine ⟨rfl, ?_⟩
  exact (route_all_mode_dedup rAllDup uEmpty rfl (by decide) [[0, 1], [2]]
    (validSched_canonical 2 3) (by decide)).1

-- ### Further equation and access helpers

theorem compileRoute_cond_err {C : ExprCompiler} {i : Nat} {route : Route}
    {e : String} (hp : C.compileBool route.Condition = .error e) :
    compileRoute C i route =
      .error ("failed to compile condition for route[" ++ toString i ++ "]: " ++ e) := by
  rw [compileRoute, hp]

theorem compileRoute_subj_err {C : ExprCompiler} {i : Nat} {route : Route}
    {p : Program} {e : String}
    (hp : C.compileBool route.Condition = .ok p)
    (hse : route.Subject.Ty = SubjectTypeExpr)
    (ha : C.compileAny route.Subject.Value = .error e) :
    compileRoute C i route =
      .error ("failed to compile subject expression for route[" ++
        toString i ++ "]: " ++ e) := by
  rw [compileRoute_cond_ok hp, if_neg (by rw [hse]; decide), if_pos hse, ha]

theorem NewRouter_err {C : ExprCompiler} {routes : List Route} {mode : String}
    {W : Nat} {e : String} (h : compileRoutesGo C 0 routes = .error e) :
    NewRouter C routes mode W = .error e := by
  rw [NewRouter, h]

theorem NewRouter_ok {C : ExprCompiler} {routes : List Route} {mode : String}
    {W : Nat} {r : Router} (h : NewRouter C routes mode W = .ok r) :
    List.Forall₂ (compiledFrom C) routes r.routes ∧
    r.mode = mode ∧ r.routeWorkers = W := by
  unfold NewRouter at h
  cases hc : compileRoutesGo C 0 routes with
  | error e => rw [hc] at h; exact absurd h (by simp)
  | ok crs =>
    rw [hc] at h
    have h2 : (Except.ok (⟨crs, mode, W⟩ : Router) : Except String Router)
        = .ok r := h
    injection h2 with h2
    subst h2
    exact ⟨compileRoutesGo_forall₂ C routes 0 crs hc, rfl, rfl⟩

theorem evalRoute_cond_err {route : compiledRoute} {u : Update} {e : String}
    (h : runExprBool route.condition u = .error e) :
    evalRoute route u = .error e := by
  rw [evalRoute, h]

theorem evalRoute_cond_false {route : compiledRoute} {u : Update}
    (h : runExprBool route.condition u = .ok false) :
    evalRoute route u = .ok (false, "") := by
  rw [evalRoute, h]

theorem evalRoute_cond_true {route : compiledRoute} {u : Update}
    (h : runExprBool route.condition u = .ok true) :
    evalRoute route u =
      (if route.subjectType = SubjectTypeString then
        .ok (true, route.subjectStatic)
      else if route.subjectType = SubjectTypeExpr then
        match route.subjectExpr with
        | some p =>
          match runExprString p u with
          | .error e => .error e
          | .ok s => .ok (true, s)
        | none => .error "nil program"
      else .ok (true, "")) := by
  rw [evalRoute, h]

theorem evalRoute_literal {route : compiledRoute} {u : Update} {s : String}
    (hty : route.subjectType = SubjectTypeString)
    (h : evalRoute route u = .ok (true, s)) : s = route.subjectStatic := by
  cases hb : runExprBool route.condition u with
  | error e => rw [evalRoute_cond_err hb] at h; exact absurd h (by simp)
  | ok b =>
    cases b with
    | false =>
      rw [evalRoute_cond_false hb] at h
      injection h with h
      injection h with h1 h2
      exact absurd h1 (by simp)
    | true =>
      rw [evalRoute_cond_true hb, if_pos hty] at h
      injection h with h
      injection h with h1 h2
      exact h2.symm

theorem forall₂_getD {α β : Type _} {R : α → β → Prop} (d₁ : α) (d₂ : β)
    (l₁ : List α) (l₂ : List β) (h : List.Forall₂ R l₁ l₂) :
    ∀ i, i < l₂.length → R (l₁.getD i d₁) (l₂.getD i d₂) := by
  induction h with
  | nil => intro i hi; simp at hi
  | cons hR hrest ih =>
    intro i hi
    cases i with
    | zero => exact hR
    | succ i =>
      refine ih i ?_
      simp at hi
      omega

theorem getD_mem_of_lt {α : Type _} (d : α) :
    ∀ (l : List α) (i : Nat), i < l.length → l.getD i d ∈ l := by
  intro l
  induction l with
  | nil => intro i hi; simp at hi
  | cons a t ih =>
    intro i hi
    cases i with
    | zero => exact List.mem_cons_self a t
    | succ i =>
      refine List.mem_cons_of_mem a (ih i ?_)
      simp at hi
      omega

/-- Claim C5: a compile failure in any route's condition or subject aborts
`NewRouter` with an error naming that route's index and failing phase and no
router is returned (the parts quantify over the offending route's position,
assuming the routes before it compile — with several failing routes the
errgroup reports one of them, resolved in the model to the lowest index);
and the empty route list yields a router whose `Route` returns the empty
result on every event, never an error. -/
theorem newrouter_errors_and_empty (C : ExprCompiler) (mode : String) (W : Nat) :
    (∀ (pre : List Route) (route : Route) (post : List Route) (e : String),
      (∀ r ∈ pre, routeCompiles C r) →
      C.compileBool route.Condition = .error e →
      NewRouter C (pre ++ route :: post) mode W =
        .error ("failed to compile condition for route[" ++
          toString pre.length ++ "]: " ++ e)) ∧
    (∀ (pre : List Route) (route : Route) (post : List Route) (e : String),
      (∀ r ∈ pre, routeCompiles C r) →
      (∃ p, C.compileBool route.Condition = .ok p) →
      route.Subject.Ty = SubjectTypeExpr →
      C.compileAny route.Subject.Value = .error e →
      NewRouter C (pre ++ route :: post) mode W =
        .error ("failed to compile subject expression for route[" ++
          toString pre.length ++ "]: " ++ e)) ∧
    (∃ r, NewRouter C [] mode W = .ok r ∧ ∀ u, r.Route u = .ok []) := by
  refine ⟨?_, ?_, ⟨⟨[], mode, W⟩, rfl, fun u => rfl⟩⟩
  · intro pre route post e hpre herr
    refine NewRouter_err (compileRoutesGo_append_err C pre route post 0 _ hpre ?_)
    rw [Nat.zero_add]
    exact compileRoute_cond_err herr
  · intro pre route post e hpre hok hse ha
    obtain ⟨p, hp⟩ := hok
    refine NewRouter_err (compileRoutesGo_append_err C pre route post 0 _ hpre ?_)
    rw [Nat.zero_add]
    exact compileRoute_subj_err hp hse ha

/-- Claim C5 (witness): a failing condition at index 0 is reported with the
condition phase, a failing subject expression with the subject phase, and
the empty route list routes every event to the empty result. -/
theorem newrouter_errors_and_empty_witness :
    NewRouter CcondFail [routeLitA] "first" 5 =
      .error "failed to compile condition for route[0]: unexpected token" ∧
    NewRouter CsubjFail [routeIntSubject] "first" 5 =
      .error "failed to compile subject expression for route[0]: unexpected token" ∧
    (∃ r, NewRouter Cok [] "first" 5 = .ok r ∧ ∀ u, r.Route u = .ok []) :=
  ⟨(newrouter_errors_and_empty CcondFail "first" 5).1 [] routeLitA [] "unexpected token"
      (fun r hr => absurd hr (List.not_mem_nil r)) rfl,
   (newrouter_errors_and_empty CsubjFail "first" 5).2.1 [] routeIntSubject []
      "unexpected token" (fun r hr => absurd hr (List.not_mem_nil r))
      ⟨pTrue, rfl⟩ rfl rfl,
   (newrouter_errors_and_empty Cok "first" 5).2.2⟩

/-- Claim C6 (counterexample): `NewRouter` compiles subject expressions
with no expected-return-kind constraint (`expr.Compile` without
`expr.AsString()`), so under a compiler that — like the real engine on the
source `1 + 2` — accepts the expression and produces an integer-valued
program, compilation succeeds instead of rejecting the statically non-string
subject; the mismatch only surfaces at runtime. -/
theorem subject_kind_not_checked_at_compile :
    NewRouter Cint [routeIntSubject] "first" 1
      = .ok ⟨[⟨pTrue, SubjectTypeExpr, "", some pInt3⟩], "first", 1⟩ ∧
    (⟨[⟨pTrue, SubjectTypeExpr, "", some pInt3⟩], "first", 1⟩ : Router).Route uEmpty
      = .error "expected string, got int" :=
  ⟨rfl, rfl⟩

/-- Claim C6 (amended): conditions are compiled through the boolean
expected-kind constraint (`compileBool`) while dynamic subjects are
compiled with no return-kind constraint (`compileAny`), and a subject
program whose runtime output is not a string makes the route evaluation
fail with the `runExpr` type-assertion error. -/
theorem expected_return_kinds (C : ExprCompiler) (routes : List Route)
    (mode : String) (W : Nat) (r : Router)
    (h : NewRouter C routes mode W = .ok r) :
    List.Forall₂ (compiledFrom C) routes r.routes ∧
    (∀ (route : compiledRoute) (u : Update) (p : Program) (v : Val),
      route.subjectType = SubjectTypeExpr →
      route.subjectExpr = some p →
      runExprBool route.condition u = .ok true →
      p u = .ok v →
      (∀ s, v ≠ .vStr s) →
      evalRoute route u = .error ("expected string, got " ++ v.goType)) := by
  refine ⟨(NewRouter_ok h).1, ?_⟩
  intro route u p v hty hsome hcond hp hv
  have hrun : runExprString p u = .error ("expected string, got " ++ v.goType) := by
    unfold runExprString
    rw [hp]
    cases v with
    | vStr s => exact absurd rfl (hv s)
    | vBool b => rfl
    | vInt k => rfl
    | vNil => rfl
    | vMap fields => rfl
  rw [evalRoute_cond_true hcond, if_neg (by rw [hty]; decide), if_pos hty, hsome]
  show (match runExprString p u with
    | Except.error e => Except.error e
    | Except.ok s => Except.ok (true, s)) =
    Except.error ("expected string, got " ++ v.goType)
  rw [hrun]

/-- Claim C6 (witness for the amended theorem): the integer-subject route
compiled by `Cint` fails at runtime with the string type-assertion error. -/
theorem expected_return_kinds_witness :
    evalRoute ⟨pTrue, SubjectTypeExpr, "", some pInt3⟩ uEmpty
      = .error "expected string, got int" :=
  (expected_return_kinds Cint [routeIntSubject] "first" 1
    ⟨[⟨pTrue, SubjectTypeExpr, "", some pInt3⟩], "first", 1⟩ rfl).2
    ⟨pTrue, SubjectTypeExpr, "", some pInt3⟩ uEmpty pInt3 (.vInt 3)
    rfl rfl rfl rfl (fun s h => by injection h)

/-- Claim C7 (counterexample): a dynamic subject program may produce the
empty string at runtime, and `Route` returns it as-is — even for a route
whose declared fields pass every check of `Config.Validate`.  Subjects in a
`RoutingResult` are therefore not always non-empty. -/
theorem dynamic_subject_can_be_empty :
    routeValid routeEmptySubject ∧
    NewRouter Cempty [routeEmptySubject] "first" 1
      = .ok ⟨[⟨pTrue, SubjectTypeExpr, "", some pStrEmpty⟩], "first", 1⟩ ∧
    (⟨[⟨pTrue, SubjectTypeExpr, "", some pStrEmpty⟩], "first", 1⟩ : Router).Route
        uEmpty = .ok [""] :=
  ⟨by unfold routeValid; decide, rfl, rfl⟩

/-- Claim C7 (amended): for a router compiled from routes that all carry
literal (`string`-typed) subjects with non-empty values — as
`Config.Validate` requires — every subject in any successful routing result
is non-empty, whatever the schedule.  With dynamic subjects the guarantee
does not hold. -/
theorem route_subjects_nonempty_literal (C : ExprCompiler) (routes : List Route)
    (mode : String) (W : Nat) (r : Router) (u : Update)
    (sched : List (List Nat)) (out : List String)
    (hlit : ∀ route ∈ routes,
      route.Subject.Ty = SubjectTypeString ∧ route.Subject.Value ≠ "")
    (h : NewRouter C routes mode W = .ok r)
    (hout : r.RouteSched sched u = .ok out) :
    ∀ s ∈ out, s ≠ "" := by
  intro s hs
  obtain ⟨i, hilen, hieval⟩ := routeLoop_ok_mem r.routes u r.mode
    r.routes.length sched (fun _ => (false, "")) (fun j => Or.inl rfl)
    out hout s hs
  have hforall := (NewRouter_ok h).1
  have hcf := forall₂_getD default default routes r.routes hforall i hilen
  have hlen : routes.length = r.routes.length := hforall.length_eq
  have hmem : routes.getD i default ∈ routes :=
    getD_mem_of_lt default routes i (by omega)
  obtain ⟨hstr, hval⟩ := hlit _ hmem
  have hty : (r.routes.getD i default).subjectType = SubjectTypeString := by
    rw [hcf.2.1, hstr]
  have hstatic := (hcf.2.2.1 hstr).1
  have hs_eq : s = (r.routes.getD i default).subjectStatic :=
    evalRoute_literal hty hieval
  rw [hs_eq, hstatic]
  exact hval

/-- Claim C7 (witness for the amended theorem): the literal test routes
produce only the non-empty configured subjects. -/
theorem route_subjects_nonempty_literal_witness :
    rLitRouter.RouteSched [[0, 1]] uEmpty = .ok ["telegram.messages"] ∧
    (∀ s ∈ ["telegram.messages"], s ≠ "") :=
  ⟨rfl,
   route_subjects_nonempty_literal Cok [routeLitA, routeLitB] "first" 2
     rLitRouter uEmpty [[0, 1]] ["telegram.messages"] (by decide) rfl rfl⟩

/-- Claim C9: routing is deterministic — compiling the same input twice
yields equal routers, hence equal `Route` results on every event
(expression programs are pure functions of the event, per the evaluator
contract), and for any two valid goroutine-arrival schedules the calls
either return identical values or both abort with an error. -/
theorem routing_deterministic (C : ExprCompiler) (routes : List Route)
    (mode : String) (W : Nat) (r₁ r₂ : Router)
    (h₁ : NewRouter C routes mode W = .ok r₁)
    (h₂ : NewRouter C routes mode W = .ok r₂) :
    r₁ = r₂ ∧ (∀ u, r₁.Route u = r₂.Route u) ∧
    (∀ u sched₁ sched₂,
      ValidSched r₁.routeWorkers r₁.routes.length sched₁ →
      ValidSched r₁.routeWorkers r₁.routes.length sched₂ →
      r₁.RouteSched sched₁ u = r₂.RouteSched sched₂ u ∨
      (∃ e₁ e₂, r₁.RouteSched sched₁ u = .error e₁ ∧
        r₂.RouteSched sched₂ u = .error e₂)) := by
  have hr : r₁ = r₂ := by
    rw [h₁] at h₂
    injection h₂ with h
  subst hr
  refine ⟨rfl, fun u => rfl, ?_⟩
  intro u sched₁ sched₂ hs₁ hs₂
  exact routeLoop_sched_agree r₁.routes u r₁.mode r₁.routes.length
    (toBatches r₁.routeWorkers (List.range r₁.routes.length)) sched₁ sched₂
    (fun _ => (false, "")) hs₁ hs₂

/-- Claim C9 (witness): the two-route literal router routes the empty event
identically under the in-order and the reversed arrival orders of its
single batch. -/
theorem routing_deterministic_witness :
    rLitRouter.RouteSched [[0, 1]] uEmpty = rLitRouter.RouteSched [[1, 0]] uEmpty ∨
    (∃ e₁ e₂, rLitRouter.RouteSched [[0, 1]] uEmpty = .error e₁ ∧
      rLitRouter.RouteSched [[1, 0]] uEmpty = .error e₂) :=
  (routing_deterministic Cok [routeLitA, routeLitB] "first" 2
    rLitRouter rLitRouter rfl rfl).2.2 uEmpty [[0, 1]] [[1, 0]]
    (validSched_canonical 2 2)
    (List.Forall₂.cons (List.Perm.swap 0 1 []) List.Forall₂.nil)
